import Mathlib

/-!
Shallow embedding of the chain-of-trust core of the `ate` repository:
the tree-authority plugin (`src/lib/src/tree.rs`), the binary-tree
indexer (`src/lib/src/index.rs`), the transaction metadata
(`src/lib/src/transaction.rs`) and the metadata accessors
(`src/src/compact.rs`).  Supporting types that the repository defines
outside the sources available here (metadata variants, signature
plugin, sessions, crypto primitives) are modelled from the
specification, as indicated on each definition.
-/

namespace Ate

/-- 128-bit identifier of a data object (`PrimaryKey`), modelled as `Nat`. -/
abbrev PrimaryKey := Nat

/-- 128-bit content digest (`Hash`), modelled as `Nat`. -/
abbrev Hash := Nat

/-- Payload byte buffer, modelled as `Nat`. -/
abbrev Bytes := Nat

/-- Symmetric encryption key, modelled as `Nat`. -/
abbrev EncryptKey := Nat

/-- Nonce for the payload cipher, modelled as `Nat`. -/
abbrev InitializationVector := Nat

/-- Modelled from the spec: `H(a‖b)` over two hashes (`DoubleHash::from_hashes`
followed by `.hash()`); an injective pairing stands in for the digest. -/
def doubleHash (a b : Hash) : Hash := Nat.pair a b

/-- Modelled from the spec: hash of a public read key (`key.hash()`);
keys are modelled as their own hashes. -/
def keyHash (k : Nat) : Hash := k

/-- Modelled from the spec: truncated key fingerprint (`EncryptKey::short_hash`). -/
def shortHash (k : EncryptKey) : Hash := k

/-- Modelled from the spec: a derived encryption key (`DerivedEncryptKey`);
`table` drives `transmute` (public read keys) and `ptable` drives
`transmute_private` (private read keys).  An absent entry models a
derivation failure. -/
structure DerivedEncryptKey where
  table : List (Nat × EncryptKey)
  ptable : List (Nat × EncryptKey)
deriving DecidableEq, Repr

/-- Association-list lookup: the map semantics used for `FxHashMap`
and `MultiMap` state in this embedding. -/
def lookupA {α β : Type} [DecidableEq α] (k : α) : List (α × β) → Option β
  | [] => none
  | (a, b) :: t => if a = k then some b else lookupA k t

/-- Association-list removal (`HashMap::remove` semantics): every
binding of the key is dropped. -/
def eraseA {α β : Type} [DecidableEq α] (k : α) : List (α × β) → List (α × β) :=
  List.filter (fun p => decide (p.1 ≠ k))

/-- Association-list update (map semantics: previous bindings of the
key are dropped and the new binding stored). -/
def setA {α β : Type} [DecidableEq α] (k : α) (v : β) (l : List (α × β)) : List (α × β) :=
  (k, v) :: eraseA k l

/-- `ReadOption` (per the data-model table of the spec and its uses in
`tree.rs`): `Inherit`, `Everyone(optional key)`, `Specific(key_hash, derivation)`. -/
inductive ReadOption where
  | inherit : ReadOption
  | everyone (key : Option EncryptKey) : ReadOption
  | specific (key_hash : Hash) (derived : DerivedEncryptKey) : ReadOption
deriving DecidableEq, Repr

/-- `WriteOption`: `Inherit`, `Everyone`, `Nobody`, `Specific(hash)`,
`Any(list of hashes)`. -/
inductive WriteOption where
  | inherit : WriteOption
  | everyone : WriteOption
  | nobody : WriteOption
  | specific (h : Hash) : WriteOption
  | any (hs : List Hash) : WriteOption
deriving DecidableEq, Repr

/-- Modelled from the spec: `WriteOption::vals()`, the resolved set of
writer key hashes of a write option. -/
def WriteOption.vals : WriteOption → List Hash
  | .specific h => [h]
  | .any hs => hs
  | _ => []

/-- `MetaCollection`: the identity of a parent collection
(`parent_id` plus a collection discriminator). -/
structure MetaCollection where
  parent_id : PrimaryKey
  collection_id : Nat
deriving DecidableEq, Repr

/-- `MetaTree` / `MetaParent`: declares a record's parent in the trust
tree; `vec` names the parent collection (used as `parent.vec.parent_id`
in `tree.rs` and `tree.vec` in `index.rs`). -/
structure MetaTree where
  vec : MetaCollection
deriving DecidableEq, Repr

/-- `MetaAuthorization`: per-record read and write rights. -/
structure MetaAuthorization where
  read : ReadOption
  write : WriteOption
deriving DecidableEq, Repr

/-- `MetaConfidentiality`: identifies the encryption key by its
truncated fingerprint; `_cache` optionally carries the resolved read
option (consulted first by `get_encrypt_key` in `tree.rs`). -/
structure MetaConfidentiality where
  hash : Hash
  _cache : Option ReadOption
deriving DecidableEq, Repr

/-- `MetaTimestamp`: chain time in milliseconds since the epoch. -/
structure MetaTimestamp where
  time_since_epoch_ms : Nat
deriving DecidableEq, Repr

/-- `CoreMetadata` tagged variants, from the data-model table of the
spec and the match arms in `index.rs` / `tree.rs` / `compact.rs`. -/
inductive CoreMetadata where
  | data (key : PrimaryKey) : CoreMetadata
  | tombstone (key : PrimaryKey) : CoreMetadata
  | tree (t : MetaTree) : CoreMetadata
  | authorization (a : MetaAuthorization) : CoreMetadata
  | confidentiality (c : MetaConfidentiality) : CoreMetadata
  | initializationVector (iv : InitializationVector) : CoreMetadata
  | timestamp (t : MetaTimestamp) : CoreMetadata
deriving DecidableEq, Repr

/-- `Metadata`: a list of `CoreMetadata` entries. -/
structure Metadata where
  core : List CoreMetadata
deriving DecidableEq, Repr

/-- First `Tombstone` entry of a metadata list (the loop shape of
`MetadataExt::get_tombstone` in `src/src/compact.rs` and of the first
loop of `BinaryTreeIndexer::feed`). -/
def findTombstone : List CoreMetadata → Option PrimaryKey
  | [] => none
  | .tombstone k :: _ => some k
  | _ :: t => findTombstone t

/-- `Metadata::get_tombstone` (`src/src/compact.rs`): the first
`Tombstone` entry. -/
def Metadata.get_tombstone (m : Metadata) : Option PrimaryKey :=
  findTombstone m.core

/-- Modelled from the spec: `Metadata::get_data_key` (not under the
available sources), the first `Data` entry, following the
first-matching-entry accessor pattern of `get_tombstone`. -/
def Metadata.get_data_key (m : Metadata) : Option PrimaryKey :=
  m.core.findSome? fun c => match c with
    | .data k => some k
    | _ => none

/-- Modelled from the spec: `Metadata::get_parent`, the first `Tree`
entry (the spec's `Tree(parent)` declares the record's parent). -/
def Metadata.get_parent (m : Metadata) : Option MetaTree :=
  m.core.findSome? fun c => match c with
    | .tree t => some t
    | _ => none

/-- Modelled from the spec: `Metadata::get_authorization`, the first
`Authorization` entry. -/
def Metadata.get_authorization (m : Metadata) : Option MetaAuthorization :=
  m.core.findSome? fun c => match c with
    | .authorization a => some a
    | _ => none

/-- Modelled from the spec: `Metadata::get_confidentiality`, the first
`Confidentiality` entry. -/
def Metadata.get_confidentiality (m : Metadata) : Option MetaConfidentiality :=
  m.core.findSome? fun c => match c with
    | .confidentiality c2 => some c2
    | _ => none

/-- Modelled from the spec: `Metadata::get_iv().ok()`, the first
`InitializationVector` entry. -/
def Metadata.get_iv (m : Metadata) : Option InitializationVector :=
  m.core.findSome? fun c => match c with
    | .initializationVector iv => some iv
    | _ => none

/-- Modelled from the spec: `Metadata::get_timestamp`, the first
`Timestamp` entry. -/
def Metadata.get_timestamp (m : Metadata) : Option MetaTimestamp :=
  m.core.findSome? fun c => match c with
    | .timestamp t => some t
    | _ => none

/-- Modelled from the spec: `Metadata::needs_signature` — an event
needs a signature when it carries a payload record or deletes one. -/
def Metadata.needs_signature (m : Metadata) : Bool :=
  m.core.any fun c => match c with
    | .data _ => true
    | .tombstone _ => true
    | _ => false

/-- `EventHeaderRaw`: meta hash, optional data hash and the canonical
event hash `H(meta_hash‖data_hash?)`. -/
structure EventHeaderRaw where
  meta_hash : Hash
  data_hash : Option Hash
  event_hash : Hash
deriving DecidableEq, Repr

/-- `EventHeader`: decoded metadata plus the raw hashes. -/
structure EventHeader where
  meta : Metadata
  raw : EventHeaderRaw
deriving DecidableEq, Repr

/-- `EventLeaf` (index entry, `src/lib/src/index.rs`). -/
structure EventLeaf where
  record : Hash
  created : Nat
  updated : Nat
deriving DecidableEq, Repr

/-- `BinaryTreeIndexer` state (`src/lib/src/index.rs`): primary and
secondary indices plus the parent map, with `FxHashMap`/`MultiMap`
modelled as association lists. -/
structure BinaryTreeIndexer where
  primary : List (PrimaryKey × EventLeaf)
  secondary : List (MetaCollection × List PrimaryKey)
  parent : List (PrimaryKey × MetaTree)
deriving DecidableEq, Repr

/-- `MultiMap::get_vec_mut` followed by an in-place update: apply `f`
to the vector stored at `c`, if one exists. -/
def updateVec (c : MetaCollection) (f : List PrimaryKey → List PrimaryKey) :
    List (MetaCollection × List PrimaryKey) → List (MetaCollection × List PrimaryKey) :=
  List.map fun p => if p.1 = c then (p.1, f p.2) else p

/-- `MultiMap::insert`: append the key to the vector at `c`, creating
the vector if absent. -/
def mmInsert (c : MetaCollection) (k : PrimaryKey)
    (l : List (MetaCollection × List PrimaryKey)) : List (MetaCollection × List PrimaryKey) :=
  match lookupA c l with
  | some v => setA c (v ++ [k]) l
  | none => l ++ [(c, [k])]

/-- The tombstone arm of `BinaryTreeIndexer::feed` (`index.rs` lines
52-59): drop `primary[k]`, remove `k` from the parent map, and if a
parent was recorded, retain everything but `k` in that collection's
secondary vector. -/
def applyTombstone (st : BinaryTreeIndexer) (k : PrimaryKey) : BinaryTreeIndexer :=
  let secondary := match lookupA k st.parent with
    | some tree => updateVec tree.vec (List.filter fun x => decide (x ≠ k)) st.secondary
    | none => st.secondary
  { primary := eraseA k st.primary
    secondary := secondary
    parent := eraseA k st.parent }

/-- One step of the second loop of `BinaryTreeIndexer::feed`
(`index.rs` lines 65-101), parametrised over the event's raw header,
timestamp and data key, which the Rust loop reads from the whole event. -/
def feedStep (raw : EventHeaderRaw) (ts : Option MetaTimestamp) (dataKey : Option PrimaryKey)
    (st : BinaryTreeIndexer) : CoreMetadata → BinaryTreeIndexer
  | .data key =>
    match raw.data_hash with
    | none => st
    | some _ =>
      let whenMs := match ts with
        | some t => t.time_since_epoch_ms
        | none => 0
      let v0 := match lookupA key st.primary with
        | some v => v
        | none => { record := 0, created := whenMs, updated := 0 }
      let v1 := { v0 with record := raw.event_hash, updated := whenMs }
      { st with primary := setA key v1 st.primary }
  | .tree tree =>
    match dataKey with
    | none => st
    | some key =>
      let secondary1 := match lookupA key st.parent with
        | some old => updateVec old.vec (List.filter fun x => decide (x ≠ key)) st.secondary
        | none => st.secondary
      let parent1 := eraseA key st.parent
      let parent2 := setA key tree parent1
      let exists1 := match lookupA tree.vec secondary1 with
        | some v => v.contains key
        | none => false
      let secondary2 := if exists1 then secondary1 else mmInsert tree.vec key secondary1
      { primary := st.primary, secondary := secondary2, parent := parent2 }
  | _ => st

/-- `BinaryTreeIndexer::feed` (`index.rs` lines 49-102): a first scan
acts on the first `Tombstone` entry and returns; otherwise the second
loop folds over every metadata entry. -/
def BinaryTreeIndexer.feed (st : BinaryTreeIndexer) (e : EventHeader) : BinaryTreeIndexer :=
  match findTombstone e.meta.core with
  | some k => applyTombstone st k
  | none => e.meta.core.foldl (feedStep e.raw e.meta.get_timestamp e.meta.get_data_key) st

/-- `BinaryTreeIndexer::lookup_primary`. -/
def BinaryTreeIndexer.lookup_primary (st : BinaryTreeIndexer) (k : PrimaryKey) : Option EventLeaf :=
  lookupA k st.primary

/-- `BinaryTreeIndexer::contains_key`. -/
def BinaryTreeIndexer.contains_key (st : BinaryTreeIndexer) (k : PrimaryKey) : Bool :=
  (lookupA k st.primary).isSome

/-- `TrustError` variants used by the tree-authority plugin. -/
inductive TrustError where
  | missingParent (k : PrimaryKey) : TrustError
  | noAuthorizationWrite (k : PrimaryKey) (w : WriteOption) : TrustError
  | noAuthorizationOrphan : TrustError
  | unspecifiedWritability : TrustError
  | noAuthorizationRead (k : PrimaryKey) (r : ReadOption) : TrustError
deriving DecidableEq, Repr

/-- `ValidationError` variants used by `TreeAuthorityPlugin::validate`. -/
inductive ValidationError where
  | noSignatures : ValidationError
  | detached : ValidationError
  | trust (e : TrustError) : ValidationError
deriving DecidableEq, Repr

/-- `ValidationResult`. -/
inductive ValidationResult where
  | allow : ValidationResult
  | abstain : ValidationResult
deriving DecidableEq, Repr

/-- `CryptoError` variants reachable from the read path. -/
inductive CryptoError where
  | noIvPresent : CryptoError
  | failed : CryptoError
deriving DecidableEq, Repr

/-- `TransformError` variants used by the read/write transform path. -/
inductive TransformError where
  | unspecifiedReadability : TransformError
  | missingReadKey (h : Hash) : TransformError
  | cryptoError (e : CryptoError) : TransformError
  | trust (e : TrustError) : TransformError
deriving DecidableEq, Repr

/-- `IntegrityMode`: `Distributed` or `Centralized`. -/
inductive IntegrityMode where
  | distributed : IntegrityMode
  | centralized : IntegrityMode
deriving DecidableEq, Repr

/-- `ComputePhase` (`tree.rs` lines 35-40). -/
inductive ComputePhase where
  | beforeStore : ComputePhase
  | afterStore : ComputePhase
deriving DecidableEq, Repr

/-- `TransactionMetadata` (`src/lib/src/transaction.rs`): pending
per-transaction authorizations and parents. -/
structure TransactionMetadata where
  auth : List (PrimaryKey × MetaAuthorization)
  parents : List (PrimaryKey × MetaTree)
deriving DecidableEq, Repr

/-- `TransactionMetadata::default()`: both maps empty. -/
def TransactionMetadata.empty : TransactionMetadata :=
  { auth := [], parents := [] }

/-- Modelled from the spec: the per-connection `ConversationSession`
(not under the available sources) — whether the other end is the
server, and the set of signer key hashes already observed, as read by
`validate` in `tree.rs`. -/
structure ConversationSession where
  other_end_is_server : Bool
  signatures : List Hash
deriving DecidableEq, Repr

/-- Modelled from the spec: the `SignaturePlugin` state (not under the
available sources), reduced to the mapping consulted by
`get_verified_signatures`: for an event hash, the list of key hashes
with a verified signature over it.  Its own `validate`, `feed` and
overlay steps carry no further state relevant to the claims and are
treated as accepting pass-throughs. -/
structure SignaturePlugin where
  verified : List (Hash × List Hash)
deriving DecidableEq, Repr

/-- `SignaturePlugin::get_verified_signatures`. -/
def SignaturePlugin.get_verified_signatures (p : SignaturePlugin) (h : Hash) : Option (List Hash) :=
  lookupA h p.verified

/-- `TreeAuthorityPlugin` state (`tree.rs` lines 24-33); the root-key
map stores key hashes (keys are modelled as their hashes). -/
structure TreeAuthorityPlugin where
  root : WriteOption
  root_keys : List Hash
  auth : List (PrimaryKey × MetaAuthorization)
  parents : List (PrimaryKey × MetaTree)
  signature_plugin : SignaturePlugin
  integrity : IntegrityMode
deriving DecidableEq, Repr

/-- `TreeAuthorityPlugin::new` (`tree.rs` lines 44-53). -/
def TreeAuthorityPlugin.new : TreeAuthorityPlugin :=
  { root := .everyone
    root_keys := []
    auth := []
    parents := []
    signature_plugin := { verified := [] }
    integrity := .distributed }

/-- `TreeAuthorityPlugin::add_root_public_key` (`tree.rs` lines 56-60):
record the key hash and re-derive the root write option as
`Any(root_keys)`. -/
def TreeAuthorityPlugin.add_root_public_key (s : TreeAuthorityPlugin) (k : Hash) : TreeAuthorityPlugin :=
  let keys := if s.root_keys.contains k then s.root_keys else s.root_keys ++ [k]
  { s with root_keys := keys, root := .any keys }

/-- `TreeAuthorityPlugin::set_root_keys` (`tree.rs` lines 558-567):
reset to `WriteOption::Everyone` and add each key. -/
def TreeAuthorityPlugin.set_root_keys (s : TreeAuthorityPlugin) (ks : List Hash) : TreeAuthorityPlugin :=
  ks.foldl (fun s2 k => s2.add_root_public_key k)
    { s with root_keys := [], root := .everyone }

/-- The parent-authorization lookup of the inheritance walk
(`tree.rs` lines 112-115): `trans_meta.auth` first, then plugin state. -/
def authOf (s : TreeAuthorityPlugin) (tm : TransactionMetadata) (k : PrimaryKey) :
    Option MetaAuthorization :=
  match lookupA k tm.auth with
  | some a => some a
  | none => lookupA k s.auth

/-- The next-parent lookup of the inheritance walk (`tree.rs` lines
136-139): `trans_meta.parents` first, then plugin state. -/
def parentOf (s : TreeAuthorityPlugin) (tm : TransactionMetadata) (k : PrimaryKey) :
    Option MetaTree :=
  match lookupA k tm.parents with
  | some t => some t
  | none => lookupA k s.parents

/-- The `while` loop of `compute_auth` (`tree.rs` lines 101-147),
with an explicit fuel for the walk up the parent chain; `none` models
a walk that does not finish within the given fuel. -/
def loopGo (s : TreeAuthorityPlugin) (tm : TransactionMetadata) :
    Nat → ReadOption → WriteOption → Option MetaTree →
    Option (Except TrustError (ReadOption × WriteOption))
  | _, read, write, none => some (.ok (read, write))
  | fuel, read, write, some p =>
    if read = .inherit ∨ write = .inherit then
      match fuel with
      | 0 => none
      | fuel + 1 =>
        match authOf s tm p.vec.parent_id with
        | none => some (.error (.missingParent p.vec.parent_id))
        | some pa =>
          loopGo s tm fuel
            (if read = .inherit then pa.read else read)
            (if write = .inherit then pa.write else write)
            (parentOf s tm p.vec.parent_id)
    else
      some (.ok (read, write))

/-- The pre-walk authorization pick of `compute_auth` (`tree.rs` lines
78-91): the event's own authorization in the `AfterStore` phase only,
else `trans_meta.auth[key]`, else the plugin's `auth[key]`. -/
def initialAuth (s : TreeAuthorityPlugin) (meta : Metadata) (tm : TransactionMetadata)
    (phase : ComputePhase) (key : PrimaryKey) : Option MetaAuthorization :=
  let auth0 : Option MetaAuthorization :=
    match phase with
    | .beforeStore => none
    | .afterStore => meta.get_authorization
  match auth0 with
  | some a => some a
  | none =>
    match lookupA key tm.auth with
    | some a => some a
    | none => lookupA key s.auth

/-- `TreeAuthorityPlugin::compute_auth` (`tree.rs` lines 62-164), with
the loop fuel made explicit; `none` models non-termination of the
inheritance walk. -/
def compute_auth (s : TreeAuthorityPlugin) (meta : Metadata) (tm : TransactionMetadata)
    (phase : ComputePhase) (fuel : Nat) : Option (Except TrustError MetaAuthorization) :=
  match meta.get_data_key with
  | none => some (.ok { read := .everyone none, write := s.root })
  | some key =>
    let rw : ReadOption × WriteOption := match initialAuth s meta tm phase key with
      | some a => (a.read, a.write)
      | none => (.inherit, .inherit)
    match loopGo s tm fuel rw.1 rw.2 meta.get_parent with
    | none => none
    | some (.error e) => some (.error e)
    | some (.ok (read, write)) =>
      some (.ok
        { read := if read = .inherit then .everyone none else read
          write := if write = .inherit then s.root else write })

/-- The conversation short-circuit of `validate` in Centralized mode
(`tree.rs` lines 326-334): the resolved write option names a key the
conversation has already recorded. -/
def writerAlready (c : ConversationSession) : WriteOption → Bool
  | .specific h => c.signatures.contains h
  | .any hs => hs.any fun h => c.signatures.contains h
  | _ => false

/-- `TreeAuthorityPlugin::validate` (`tree.rs` lines 288-358), with
the fuel of `compute_auth` made explicit; the signature plugin's own
`validate` is modelled from the spec as accepting. -/
def validate (s : TreeAuthorityPlugin) (header : EventHeader)
    (conversation : Option ConversationSession) (fuel : Nat) :
    Option (Except ValidationError ValidationResult) :=
  if header.meta.needs_signature = false ∧ header.raw.data_hash = none then
    some (.ok .allow)
  else
    let hash := match header.raw.data_hash with
      | some a => doubleHash header.raw.meta_hash a
      | none => header.raw.meta_hash
    match compute_auth s header.meta TransactionMetadata.empty .beforeStore fuel with
    | none => none
    | some (.error e) => some (.error (.trust e))
    | some (.ok auth) =>
      if auth.write = .everyone then
        some (.ok .allow)
      else
        match s.signature_plugin.get_verified_signatures hash with
        | none =>
          if s.integrity = .centralized then
            match conversation with
            | some c =>
              if c.other_end_is_server then
                some (.ok .allow)
              else if writerAlready c auth.write then
                some (.ok .allow)
              else
                some (.error .noSignatures)
            | none => some (.error .noSignatures)
          else
            some (.error .noSignatures)
        | some verified =>
          if verified.any (fun h => (auth.write.vals).contains h) then
            some (.ok .allow)
          else
            some (.error .detached)

/-- Modelled from the spec: the user `Session` (not under the available
sources), reduced to the key lists iterated by `get_encrypt_key`;
read keys are modelled as their own hashes. -/
structure Session where
  read_keys : List Nat
  private_read_keys : List Nat
deriving DecidableEq, Repr

/-- Modelled from the spec: `DerivedEncryptKey::transmute` — derive the
inner encryption key from a public read key; failure when no
derivation exists. -/
def DerivedEncryptKey.transmute (d : DerivedEncryptKey) (k : Nat) :
    Except TransformError EncryptKey :=
  match lookupA k d.table with
  | some e => .ok e
  | none => .error (.cryptoError .failed)

/-- Modelled from the spec: `DerivedEncryptKey::transmute_private`,
the private-read-key variant of `transmute`. -/
def DerivedEncryptKey.transmute_private (d : DerivedEncryptKey) (k : Nat) :
    Except TransformError EncryptKey :=
  match lookupA k d.ptable with
  | some e => .ok e
  | none => .error (.cryptoError .failed)

/-- Modelled from the spec: symmetric AEAD decryption, abstracted as
XOR with the key so that it inverts the matching encryption. -/
def decrypt (key : EncryptKey) (_iv : InitializationVector) (cipher : Bytes) :
    Except CryptoError Bytes :=
  .ok (Nat.xor cipher key)

/-- The key-search loop of the `Specific` arm of `get_encrypt_key`
(`tree.rs` lines 222-237): walk the session keys whose hash matches,
propagate a `transmute` failure, accept the first derived key whose
fingerprint matches the confidentiality entry, otherwise continue. -/
def findReadKey (d : DerivedEncryptKey) (kh want : Hash) (priv : Bool) :
    List Nat → Except TransformError (Option EncryptKey)
  | [] => .ok none
  | k :: rest =>
    if keyHash k = kh then
      match (if priv then d.transmute_private k else d.transmute k) with
      | .error e => .error e
      | .ok inner =>
        if shortHash inner = want then .ok (some inner)
        else findReadKey d kh want priv rest
    else
      findReadKey d kh want priv rest

/-- `TreeAuthorityPlugin::get_encrypt_key` (`tree.rs` lines 197-241),
with the fuel of `compute_auth` made explicit. -/
def get_encrypt_key (s : TreeAuthorityPlugin) (meta : Metadata)
    (confidentiality : MetaConfidentiality) (iv : Option InitializationVector)
    (session : Session) (fuel : Nat) : Option (Except TransformError (Option EncryptKey)) :=
  let authRes : Option (Except TrustError ReadOption) :=
    match confidentiality._cache with
    | some a => some (.ok a)
    | none =>
      match compute_auth s meta TransactionMetadata.empty .afterStore fuel with
      | none => none
      | some (.error e) => some (.error e)
      | some (.ok a) => some (.ok a.read)
  match authRes with
  | none => none
  | some (.error e) => some (.error (.trust e))
  | some (.ok auth) =>
    match auth with
    | .inherit => some (.error .unspecifiedReadability)
    | .everyone key =>
      match iv, key with
      | some _, some k => some (.ok (some k))
      | _, _ => some (.ok none)
    | .specific key_hash derived =>
      match findReadKey derived key_hash confidentiality.hash false session.read_keys with
      | .error e => some (.error e)
      | .ok (some k) => some (.ok (some k))
      | .ok none =>
        match findReadKey derived key_hash confidentiality.hash true session.private_read_keys with
        | .error e => some (.error e)
        | .ok (some k) => some (.ok (some k))
        | .ok none => some (.error (.missingReadKey key_hash))

/-- `TreeAuthorityPlugin::data_as_overlay` (`tree.rs` lines 509-533),
the read path, with the fuel of `compute_auth` made explicit; the
signature plugin's overlay is modelled from the spec as the identity
on the payload. -/
def data_as_overlay (s : TreeAuthorityPlugin) (meta : Metadata) (withB : Bytes)
    (session : Session) (fuel : Nat) : Option (Except TransformError Bytes) :=
  let iv := meta.get_iv
  match meta.get_confidentiality with
  | some confidentiality =>
    match get_encrypt_key s meta confidentiality iv session fuel with
    | none => none
    | some (.error e) => some (.error e)
    | some (.ok (some key)) =>
      match iv with
      | none => some (.error (.cryptoError .noIvPresent))
      | some iv2 =>
        match decrypt key iv2 withB with
        | .error e => some (.error (.cryptoError e))
        | .ok d => some (.ok d)
    | some (.ok none) => some (.ok withB)
  | none =>
    if iv.isSome then some (.error .unspecifiedReadability)
    else some (.ok withB)

/-- The acceptance condition of the Centralized-mode conversation
short-circuit (`tree.rs` lines 320-334), as a predicate for the
validation characterisation: integrity is Centralized, a conversation
is present, and either its other end is the server or it has already
recorded a writer key named by the resolved write option. -/
def centralShortcut (s : TreeAuthorityPlugin) (conversation : Option ConversationSession)
    (w : WriteOption) : Prop :=
  s.integrity = .centralized ∧
    ∃ c, conversation = some c ∧
      (c.other_end_is_server = true ∨ writerAlready c w = true)

/-- A rank witness of acyclicity for the parent graph: every parent
edge (`trans_meta.parents` first, then plugin state) strictly
decreases the rank. -/
def DecreasingRank (s : TreeAuthorityPlugin) (tm : TransactionMetadata)
    (rank : PrimaryKey → Nat) : Prop :=
  ∀ k t, parentOf s tm k = some t → rank t.vec.parent_id < rank k

/-- Fuel needed by the inheritance walk starting from an optional
parent pointer, under a given rank. -/
def rankBound (rank : PrimaryKey → Nat) : Option MetaTree → Nat
  | none => 0
  | some t => rank t.vec.parent_id + 1

section ConcreteInstances

/-- Concrete plugin state: Centralized integrity, root write option
`Any [7]`, and one verified signature by key hash `9` over the event
hash `H(1‖2)`. -/
def sCen : TreeAuthorityPlugin :=
  { root := .any [7]
    root_keys := [7]
    auth := []
    parents := []
    signature_plugin := { verified := [(Nat.pair 1 2, [9])] }
    integrity := .centralized }

/-- Concrete event header with empty metadata and a data hash. -/
def hdrD : EventHeader :=
  { meta := ⟨[]⟩
    raw := { meta_hash := 1, data_hash := some 2, event_hash := Nat.pair 1 2 } }

/-- Concrete conversation whose other end is the server. -/
def convSrv : ConversationSession :=
  { other_end_is_server := true, signatures := [] }

/-- Concrete plugin state: Distributed integrity, root write option
`Any [7]`, no verified signatures. -/
def sDis : TreeAuthorityPlugin :=
  { TreeAuthorityPlugin.new with root := .any [7] }

/-- Concrete derived key: public read key `10` derives inner key `99`. -/
def dK : DerivedEncryptKey := { table := [(10, 99)], ptable := [] }

/-- Concrete metadata: a Confidentiality entry with cached read option
`Everyone(None)` and no InitializationVector. -/
def mEvr : Metadata := ⟨[.confidentiality ⟨0, none⟩]⟩

/-- Concrete metadata: a Confidentiality entry whose cached read
option is `Specific(10, dK)` and fingerprint `99`, and no
InitializationVector. -/
def mSpec : Metadata := ⟨[.confidentiality ⟨99, some (.specific 10 dK)⟩]⟩

/-- Concrete metadata: an InitializationVector and no Confidentiality. -/
def mIv : Metadata := ⟨[.initializationVector 3]⟩

/-- Concrete session holding public read key `10`. -/
def sessK : Session := ⟨[10], []⟩

/-- Concrete empty session. -/
def sessE : Session := ⟨[], []⟩

/-- Concrete index leaf. -/
def leafN (n : Nat) : EventLeaf := { record := n, created := 0, updated := 0 }

/-- Concrete indexer state holding keys `1` and `2`, with `1` attached
to collection `⟨5,0⟩`. -/
def stIx : BinaryTreeIndexer :=
  { primary := [(1, leafN 1), (2, leafN 2)]
    secondary := [(⟨5, 0⟩, [1, 2])]
    parent := [(1, ⟨⟨5, 0⟩⟩)] }

/-- Concrete event carrying two tombstones. -/
def eTwoTomb : EventHeader :=
  { meta := ⟨[.tombstone 1, .tombstone 2]⟩
    raw := { meta_hash := 0, data_hash := none, event_hash := 3 } }

/-- Concrete event carrying one tombstone, plus Data and Tree entries
that the tombstone arm must ignore. -/
def eTomb : EventHeader :=
  { meta := ⟨[.tombstone 1, .data 1, .tree ⟨⟨5, 0⟩⟩]⟩
    raw := { meta_hash := 0, data_hash := some 1, event_hash := 3 } }

/-- Concrete plugin state with one recorded authorization for key `1`. -/
def sAuth : TreeAuthorityPlugin :=
  { TreeAuthorityPlugin.new with
      auth := [(1, { read := .everyone (some 4), write := .any [8] })] }

/-- Concrete metadata for a record `2` whose parent is record `1`. -/
def mChild : Metadata := ⟨[.data 2, .tree ⟨⟨1, 0⟩⟩]⟩

end ConcreteInstances

section MapLemmas

theorem eraseA_cons {α β : Type} [DecidableEq α] (k a : α) (b : β) (t : List (α × β)) :
    eraseA k ((a, b) :: t) = if a = k then eraseA k t else (a, b) :: eraseA k t := by
  by_cases h : a = k <;> simp [eraseA, List.filter_cons, h]

theorem lookupA_eraseA_self {α β : Type} [DecidableEq α] (k : α) (l : List (α × β)) :
    lookupA k (eraseA k l) = none := by
  induction l with
  | nil => rfl
  | cons hd tl ih =>
    rcases hd with ⟨a, b⟩
    rw [eraseA_cons]
    by_cases h : a = k
    · rw [if_pos h]; exact ih
    · rw [if_neg h]
      simpa [lookupA, h] using ih

theorem lookupA_eraseA_ne {α β : Type} [DecidableEq α] {k j : α} (h : k ≠ j)
    (l : List (α × β)) : lookupA j (eraseA k l) = lookupA j l := by
  induction l with
  | nil => rfl
  | cons hd tl ih =>
    rcases hd with ⟨a, b⟩
    rw [eraseA_cons]
    by_cases ha : a = k
    · have haj : ¬ a = j := by rw [ha]; exact h
      rw [if_pos ha, ih]
      simp [lookupA, haj]
    · rw [if_neg ha]
      by_cases hj : a = j
      · simp [lookupA, hj]
      · simp [lookupA, hj, ih]

theorem lookupA_setA {α β : Type} [DecidableEq α] (k j : α) (v : β) (l : List (α × β)) :
    lookupA j (setA k v l) = if k = j then some v else lookupA j l := by
  by_cases h : k = j
  · simp [setA, lookupA, h]
  · simp [setA, lookupA, h, lookupA_eraseA_ne h l]

theorem updateVec_cons (c : MetaCollection) (f : List PrimaryKey → List PrimaryKey)
    (c0 : MetaCollection) (v0 : List PrimaryKey) (tl : List (MetaCollection × List PrimaryKey)) :
    updateVec c f ((c0, v0) :: tl) =
      (if c0 = c then (c0, f v0) else (c0, v0)) :: updateVec c f tl := by
  by_cases h : c0 = c <;> simp [updateVec, h]

theorem lookupA_updateVec (c : MetaCollection) (f : List PrimaryKey → List PrimaryKey)
    (l : List (MetaCollection × List PrimaryKey)) :
    lookupA c (updateVec c f l) = Option.map f (lookupA c l) := by
  induction l with
  | nil => rfl
  | cons hd tl ih =>
    rcases hd with ⟨c0, v0⟩
    rw [updateVec_cons]
    by_cases h : c0 = c
    · rw [if_pos h]
      simp [lookupA, h]
    · rw [if_neg h]
      simp [lookupA, h, ih]

end MapLemmas

section IndexerLemmas

theorem feedStep_preserves_primary (raw : EventHeaderRaw) (ts : Option MetaTimestamp)
    (dk : Option PrimaryKey) (st : BinaryTreeIndexer) (c : CoreMetadata) (k : PrimaryKey)
    (h : (lookupA k st.primary).isSome) :
    (lookupA k (feedStep raw ts dk st c).primary).isSome := by
  cases c with
  | data key =>
    cases hdh : raw.data_hash with
    | none => simpa [feedStep, hdh] using h
    | some dh =>
      simp only [feedStep, hdh]
      rw [lookupA_setA]
      by_cases hk : key = k
      · simp [hk]
      · simpa [hk] using h
  | tree t =>
    cases dk with
    | none => simpa [feedStep] using h
    | some key => simpa [feedStep] using h
  | tombstone key => simpa [feedStep] using h
  | authorization a => simpa [feedStep] using h
  | confidentiality c2 => simpa [feedStep] using h
  | initializationVector iv => simpa [feedStep] using h
  | timestamp t => simpa [feedStep] using h

theorem foldl_feedStep_preserves_primary (raw : EventHeaderRaw) (ts : Option MetaTimestamp)
    (dk : Option PrimaryKey) (l : List CoreMetadata) (k : PrimaryKey) :
    ∀ st : BinaryTreeIndexer, (lookupA k st.primary).isSome →
      (lookupA k (l.foldl (feedStep raw ts dk) st).primary).isSome := by
  induction l with
  | nil => intro st h; simpa using h
  | cons hd tl ih =>
    intro st h
    exact ih _ (feedStep_preserves_primary raw ts dk st hd k h)

theorem foldl_feedStep_creates_primary (raw : EventHeaderRaw) (ts : Option MetaTimestamp)
    (dk : Option PrimaryKey) (dh : Hash) (hdh : raw.data_hash = some dh)
    (l : List CoreMetadata) (k : PrimaryKey) :
    ∀ st : BinaryTreeIndexer, CoreMetadata.data k ∈ l →
      (lookupA k (l.foldl (feedStep raw ts dk) st).primary).isSome := by
  induction l with
  | nil => intro st hmem; cases hmem
  | cons hd tl ih =>
    intro st hmem
    rcases List.mem_cons.mp hmem with hhd | htl
    · subst hhd
      rw [List.foldl_cons]
      apply foldl_feedStep_preserves_primary
      simp only [feedStep, hdh]
      rw [lookupA_setA]
      simp
    · exact ih _ htl

end IndexerLemmas

/-- C3 — counterexample to the claim as stated: for an event whose
metadata contains `Tombstone(1)` and `Tombstone(2)`, `feed` acts on
the first tombstone only and returns, so the entry `primary[2]` is
not removed although the metadata contains `Tombstone(2)`. -/
theorem feed_second_tombstone_counterexample :
    CoreMetadata.tombstone 2 ∈ eTwoTomb.meta.core ∧
    (stIx.feed eTwoTomb).lookup_primary 2 = some (leafN 2) := by
  exact ⟨by decide, rfl⟩

/-- C3 (amended): for every event header whose FIRST tombstone entry
is `Tombstone(k)`, `BinaryTreeIndexer::feed` removes `primary[k]`,
removes `k` from the secondary vector of `k`'s recorded parent
collection (when one is recorded), and equals the pure tombstone step
on `st` and `k` — so no further metadata of the event (in particular
any Data or Tree entry) has an effect; and a subsequent event with
`Data(k)`, a present data hash and no tombstone re-creates
`primary[k]`. -/
theorem feed_tombstone_spec (st : BinaryTreeIndexer) (e : EventHeader) (k : PrimaryKey)
    (ht : e.meta.get_tombstone = some k) :
    st.feed e = applyTombstone st k ∧
    (st.feed e).lookup_primary k = none ∧
    (∀ tree, lookupA k st.parent = some tree →
      ∀ v, lookupA tree.vec (st.feed e).secondary = some v → k ∉ v) ∧
    (∀ (st2 : BinaryTreeIndexer) (e2 : EventHeader) (dh : Hash),
      e2.meta.get_tombstone = none → CoreMetadata.data k ∈ e2.meta.core →
      e2.raw.data_hash = some dh → ((st2.feed e2).lookup_primary k).isSome) := by
  have hfeed : st.feed e = applyTombstone st k := by
    unfold BinaryTreeIndexer.feed
    rw [show findTombstone e.meta.core = some k from ht]
  refine ⟨hfeed, ?_, ?_, ?_⟩
  · rw [hfeed]
    simp only [BinaryTreeIndexer.lookup_primary, applyTombstone]
    exact lookupA_eraseA_self k st.primary
  · intro tree htree v hv hkv
    rw [hfeed] at hv
    simp only [applyTombstone, htree] at hv
    rw [lookupA_updateVec] at hv
    rcases hlook : lookupA tree.vec st.secondary with _ | v0
    · rw [hlook] at hv; cases hv
    · rw [hlook] at hv
      simp only [Option.map_some'] at hv
      rw [Option.some_inj] at hv
      rw [← hv] at hkv
      have h2 := (List.mem_filter.mp hkv).2
      simp at h2
  · intro st2 e2 dh ht2 hmem hdh2
    unfold BinaryTreeIndexer.feed
    rw [show findTombstone e2.meta.core = none from ht2]
    exact foldl_feedStep_creates_primary e2.raw e2.meta.get_timestamp e2.meta.get_data_key
      dh hdh2 e2.meta.core k st2 hmem

/-- C3 — witness: the amended theorem applied to the concrete state
`stIx` and the concrete tombstone event `eTomb`, whose Data and Tree
entries are ignored. -/
theorem feed_tombstone_spec_witness :
    (stIx.feed eTomb).lookup_primary 1 = none ∧
    stIx.feed eTomb = applyTombstone stIx 1 :=
  ⟨(feed_tombstone_spec stIx eTomb 1 rfl).2.1, (feed_tombstone_spec stIx eTomb 1 rfl).1⟩

section RootInvariant

/-- `new` establishes the invariant that the chain root's write
option is never `Inherit`. -/
theorem root_not_inherit_new : TreeAuthorityPlugin.new.root ≠ .inherit := by
  simp [TreeAuthorityPlugin.new]

/-- `add_root_public_key` preserves the non-Inherit root invariant. -/
theorem root_not_inherit_add (s : TreeAuthorityPlugin) (k : Hash) :
    (s.add_root_public_key k).root ≠ .inherit := by
  simp [TreeAuthorityPlugin.add_root_public_key]

/-- `set_root_keys` re-establishes the non-Inherit root invariant. -/
theorem root_not_inherit_set (s : TreeAuthorityPlugin) (ks : List Hash) :
    (s.set_root_keys ks).root ≠ .inherit := by
  unfold TreeAuthorityPlugin.set_root_keys
  have hstep : ∀ (l : List Hash) (s2 : TreeAuthorityPlugin), s2.root ≠ .inherit →
      (l.foldl (fun s3 k => s3.add_root_public_key k) s2).root ≠ .inherit := by
    intro l
    induction l with
    | nil => intro s2 h; exact h
    | cons hd tl ih =>
      intro s2 _
      exact ih _ (root_not_inherit_add s2 hd)
  exact hstep ks _ (by simp)

end RootInvariant

section ComputeAuthLemmas

theorem loopGo_none (s : TreeAuthorityPlugin) (tm : TransactionMetadata) (fuel : Nat)
    (read : ReadOption) (write : WriteOption) :
    loopGo s tm fuel read write none = some (.ok (read, write)) := by
  cases fuel <;> rfl

theorem loopGo_some_zero (s : TreeAuthorityPlugin) (tm : TransactionMetadata)
    (read : ReadOption) (write : WriteOption) (p : MetaTree) :
    loopGo s tm 0 read write (some p) =
      if read = .inherit ∨ write = .inherit then none
      else some (.ok (read, write)) := rfl

theorem loopGo_some_succ (s : TreeAuthorityPlugin) (tm : TransactionMetadata)
    (fuel : Nat) (read : ReadOption) (write : WriteOption) (p : MetaTree) :
    loopGo s tm (fuel + 1) read write (some p) =
      if read = .inherit ∨ write = .inherit then
        match authOf s tm p.vec.parent_id with
        | none => some (.error (.missingParent p.vec.parent_id))
        | some pa =>
          loopGo s tm fuel
            (if read = .inherit then pa.read else read)
            (if write = .inherit then pa.write else write)
            (parentOf s tm p.vec.parent_id)
      else some (.ok (read, write)) := rfl

theorem loopGo_exit (s : TreeAuthorityPlugin) (tm : TransactionMetadata) (fuel : Nat)
    (read : ReadOption) (write : WriteOption) (p : MetaTree)
    (h : ¬ (read = .inherit ∨ write = .inherit)) :
    loopGo s tm fuel read write (some p) = some (.ok (read, write)) := by
  cases fuel with
  | zero => rw [loopGo_some_zero, if_neg h]
  | succ fuel => rw [loopGo_some_succ, if_neg h]

theorem loopGo_mono (s : TreeAuthorityPlugin) (tm : TransactionMetadata) :
    ∀ (fuel fuel' : Nat) (read : ReadOption) (write : WriteOption) (p : Option MetaTree)
      (res : Except TrustError (ReadOption × WriteOption)),
      loopGo s tm fuel read write p = some res → fuel ≤ fuel' →
      loopGo s tm fuel' read write p = some res := by
  intro fuel
  induction fuel with
  | zero =>
    intro fuel' read write p res h hle
    cases p with
    | none => rw [loopGo_none] at h; rw [loopGo_none]; exact h
    | some t =>
      rw [loopGo_some_zero] at h
      by_cases hc : read = .inherit ∨ write = .inherit
      · rw [if_pos hc] at h; simp at h
      · rw [if_neg hc] at h
        rw [loopGo_exit s tm fuel' read write t hc]
        exact h
  | succ fuel ih =>
    intro fuel' read write p res h hle
    cases p with
    | none => rw [loopGo_none] at h; rw [loopGo_none]; exact h
    | some t =>
      rw [loopGo_some_succ] at h
      by_cases hc : read = .inherit ∨ write = .inherit
      · rw [if_pos hc] at h
        cases fuel' with
        | zero => omega
        | succ fuel2 =>
          rw [loopGo_some_succ, if_pos hc]
          cases hauth : authOf s tm t.vec.parent_id with
          | none => rw [hauth] at h; exact h
          | some pa =>
            rw [hauth] at h
            exact ih fuel2 _ _ _ res h (by omega)
      · rw [if_neg hc] at h
        rw [loopGo_exit s tm fuel' read write t hc]
        exact h

theorem loopGo_terminates (s : TreeAuthorityPlugin) (tm : TransactionMetadata)
    (rank : PrimaryKey → Nat) (hr : DecreasingRank s tm rank) :
    ∀ (fuel : Nat) (read : ReadOption) (write : WriteOption) (p : Option MetaTree),
      rankBound rank p ≤ fuel →
      ∃ res, loopGo s tm fuel read write p = some res ∧
        ∀ e, res = .error e → ∃ q, e = .missingParent q ∧ authOf s tm q = none := by
  intro fuel
  induction fuel with
  | zero =>
    intro read write p hb
    cases p with
    | none =>
      refine ⟨.ok (read, write), loopGo_none s tm 0 read write, ?_⟩
      intro e he; simp at he
    | some t => simp [rankBound] at hb
  | succ fuel ih =>
    intro read write p hb
    cases p with
    | none =>
      refine ⟨.ok (read, write), loopGo_none s tm (fuel + 1) read write, ?_⟩
      intro e he; simp at he
    | some t =>
      by_cases hc : read = .inherit ∨ write = .inherit
      · cases hauth : authOf s tm t.vec.parent_id with
        | none =>
          refine ⟨.error (.missingParent t.vec.parent_id), ?_, ?_⟩
          · rw [loopGo_some_succ, if_pos hc, hauth]
          · intro e he
            injection he with h2
            exact ⟨t.vec.parent_id, h2.symm, hauth⟩
        | some pa =>
          have hnext : rankBound rank (parentOf s tm t.vec.parent_id) ≤ fuel := by
            cases hp : parentOf s tm t.vec.parent_id with
            | none => simp [rankBound]
            | some t2 =>
              have h1 := hr _ _ hp
              simp only [rankBound] at hb ⊢
              omega
          obtain ⟨res, hres, hsh⟩ := ih _ _ _ hnext
          refine ⟨res, ?_, hsh⟩
          rw [loopGo_some_succ, if_pos hc, hauth]
          exact hres
      · refine ⟨.ok (read, write), loopGo_exit s tm (fuel + 1) read write t hc, ?_⟩
        intro e he; simp at he

end ComputeAuthLemmas

/-- C2: for every plugin state with a non-Inherit root write option
and every metadata object whose parent graph (over
`trans_meta.parents` then plugin state) is acyclic — witnessed by a
rank that strictly decreases along parent edges — `compute_auth`
terminates: beyond some fuel its value is a fixed result, which is
either a `MetaAuthorization` whose read is not `ReadOption::Inherit`
and whose write is not `WriteOption::Inherit`, or the error
`TrustError::MissingParent p` for a parent `p` with no authorization
recorded in `trans_meta` or plugin state. -/
theorem compute_auth_terminates (s : TreeAuthorityPlugin) (tm : TransactionMetadata)
    (meta : Metadata) (phase : ComputePhase) (rank : PrimaryKey → Nat)
    (hr : DecreasingRank s tm rank) (hroot : s.root ≠ .inherit) :
    ∃ (N : Nat) (r : Except TrustError MetaAuthorization),
      (∀ fuel, N ≤ fuel → compute_auth s meta tm phase fuel = some r) ∧
      (∀ a, r = .ok a → a.read ≠ .inherit ∧ a.write ≠ .inherit) ∧
      (∀ e, r = .error e → ∃ p, e = .missingParent p ∧ authOf s tm p = none) := by
  cases hkey : meta.get_data_key with
  | none =>
    refine ⟨0, .ok { read := .everyone none, write := s.root }, ?_, ?_, ?_⟩
    · intro fuel _
      simp [compute_auth, hkey]
    · intro a hae
      injection hae with h2
      rw [← h2]
      exact ⟨by simp, hroot⟩
    · intro e he; simp at he
  | some key =>
    obtain ⟨⟨r0, w0⟩, hrw⟩ : ∃ x : ReadOption × WriteOption,
        (match initialAuth s meta tm phase key with
          | some a => (a.read, a.write)
          | none => (.inherit, .inherit)) = x := ⟨_, rfl⟩
    have hunfold : ∀ fuel, compute_auth s meta tm phase fuel =
        match loopGo s tm fuel r0 w0 meta.get_parent with
        | none => none
        | some (.error e) => some (.error e)
        | some (.ok (read, write)) =>
          some (.ok
            { read := if read = .inherit then .everyone none else read
              write := if write = .inherit then s.root else write }) := by
      intro fuel
      simp only [compute_auth, hkey]
      rw [hrw]
    obtain ⟨res, hres, hsh⟩ :=
      loopGo_terminates s tm rank hr (rankBound rank meta.get_parent) r0 w0
        meta.get_parent le_rfl
    cases res with
    | error e =>
      refine ⟨rankBound rank meta.get_parent, .error e, ?_, ?_, ?_⟩
      · intro fuel hfuel
        rw [hunfold fuel, loopGo_mono s tm _ fuel _ _ _ _ hres hfuel]
      · intro a ha2; simp at ha2
      · intro e2 he2
        injection he2 with h3
        exact h3 ▸ hsh e rfl
    | ok rw2 =>
      obtain ⟨read2, write2⟩ := rw2
      refine ⟨rankBound rank meta.get_parent,
        .ok { read := if read2 = .inherit then .everyone none else read2
              write := if write2 = .inherit then s.root else write2 }, ?_, ?_, ?_⟩
      · intro fuel hfuel
        rw [hunfold fuel, loopGo_mono s tm _ fuel _ _ _ _ hres hfuel]
      · intro a ha2
        injection ha2 with h3
        rw [← h3]
        constructor
        · by_cases hri : read2 = .inherit
          · simp [hri]
          · simp [hri]
        · by_cases hwi : write2 = .inherit
          · simpa [hwi] using hroot
          · simp [hwi]
      · intro e2 he2; simp at he2

/-- C2 — witness: the termination theorem applied to a concrete
acyclic state (the identity rank; both parent maps empty, so the rank
condition holds vacuously) and a record `2` with no recorded
authorization whose parent pointer names record `1`, from which the
walk resolves both options. -/
theorem compute_auth_terminates_witness :
    ∃ (N : Nat) (r : Except TrustError MetaAuthorization),
      (∀ fuel, N ≤ fuel →
        compute_auth sAuth mChild TransactionMetadata.empty .beforeStore fuel = some r) ∧
      (∀ a, r = .ok a → a.read ≠ .inherit ∧ a.write ≠ .inherit) ∧
      (∀ e, r = .error e →
        ∃ p, e = .missingParent p ∧ authOf sAuth TransactionMetadata.empty p = none) :=
  compute_auth_terminates sAuth TransactionMetadata.empty mChild .beforeStore
    (fun k => k)
    (by
      intro k t h
      simp [parentOf, lookupA, sAuth, TransactionMetadata.empty,
        TreeAuthorityPlugin.new] at h)
    (by decide)

/-- C1 — counterexample to the claim as stated: with Centralized
integrity, a conversation whose other end is the server, and a data
hash present, `validate` still rejects with `Detached`, because the
event hash has a verified signature list (by key hash `9`, outside
the resolved write set `[7]`) and the Centralized short-circuit is
consulted only when no verified signature exists. -/
theorem validate_centralized_counterexample :
    sCen.integrity = .centralized ∧
    convSrv.other_end_is_server = true ∧
    hdrD.raw.data_hash = some 2 ∧
    validate sCen hdrD (some convSrv) 1 = some (.error .detached) :=
  ⟨rfl, rfl, rfl, rfl⟩

/-- C1 (amended): for every event header carrying a data hash whose
write authorization resolves (to `auth`), `validate` accepts exactly
when the resolved write option is `Everyone`, or no verified
signature exists for `H(meta_hash‖data_hash)` and the Centralized
short-circuit applies (conversation present whose other end is the
server or which already recorded a writer key of the resolved write
set), or some verified signature key hash lies in the resolved write
set; it rejects with `NoSignatures` exactly when no verified
signature exists and neither escape applies, and with `Detached`
exactly when verified signatures exist but none of their key hashes
lies in the resolved write set. -/
theorem validate_characterisation (s : TreeAuthorityPlugin) (header : EventHeader)
    (conversation : Option ConversationSession) (fuel : Nat) (d : Hash)
    (auth : MetaAuthorization) (V : Option (List Hash))
    (hd : header.raw.data_hash = some d)
    (ha : compute_auth s header.meta TransactionMetadata.empty .beforeStore fuel =
      some (.ok auth))
    (hV : s.signature_plugin.get_verified_signatures
      (doubleHash header.raw.meta_hash d) = V) :
    (validate s header conversation fuel = some (.ok .allow) ↔
      (auth.write = .everyone ∨
        (V = none ∧ centralShortcut s conversation auth.write) ∨
        ∃ vs, V = some vs ∧ ∃ h ∈ vs, h ∈ auth.write.vals)) ∧
    (validate s header conversation fuel = some (.error .noSignatures) ↔
      (auth.write ≠ .everyone ∧ V = none ∧
        ¬ centralShortcut s conversation auth.write)) ∧
    (validate s header conversation fuel = some (.error .detached) ↔
      (auth.write ≠ .everyone ∧
        ∃ vs, V = some vs ∧ ∀ h ∈ vs, h ∉ auth.write.vals)) := by
  unfold validate
  rw [ha] at *
  simp only [hd, hV, ha]
  by_cases hw : auth.write = .everyone
  · simp [hw]
  · simp only [if_neg hw]
    cases V with
    | none =>
      by_cases hi : s.integrity = .centralized
      · simp only [if_pos hi]
        cases conversation with
        | none => simp [centralShortcut, hw, hi]
        | some c =>
          by_cases hsrv : c.other_end_is_server
          · simp [centralShortcut, hw, hi, hsrv]
          · by_cases hwr : writerAlready c auth.write
            · simp [centralShortcut, hw, hi, hsrv, hwr]
            · simp [centralShortcut, hw, hi, hsrv, hwr]
      · simp [centralShortcut, hw, hi]
    | some vs =>
      by_cases hany : ∃ h ∈ vs, h ∈ auth.write.vals
      · simp [hw, hany]
      · have hall : ∀ x ∈ vs, x ∉ auth.write.vals := by
          simpa [not_exists, not_and] using hany
        simp [hw, hany]
        exact hall

/-- C1 — witness: the amended characterisation applied to a concrete
Distributed-mode state with no verified signatures, yielding the
`NoSignatures` rejection. -/
theorem validate_characterisation_witness :
    validate sDis hdrD none 1 = some (.error .noSignatures) :=
  ((validate_characterisation sDis hdrD none 1 2
      { read := .everyone none, write := .any [7] } none rfl rfl rfl).2.1).mpr
    ⟨by decide, rfl, fun hc => absurd hc.1 (by decide)⟩

/-- C4 — counterexample to the claim as stated: the metadata `mEvr`
carries a Confidentiality entry and no InitializationVector, yet
`data_as_overlay` succeeds (returning the payload unchanged) instead
of failing with `NoIvPresent`, because the resolved read option is
`Everyone(None)` and no decryption key is produced. -/
theorem overlay_missing_iv_counterexample :
    (mEvr.get_confidentiality).isSome = true ∧
    mEvr.get_iv = none ∧
    data_as_overlay TreeAuthorityPlugin.new mEvr 42 sessE 0 = some (.ok 42) :=
  ⟨rfl, rfl, rfl⟩

/-- C4 (amended): on the read path, for every metadata object carrying
a Confidentiality entry but no InitializationVector, decryption fails
with the hard error `NoIvPresent` whenever the key lookup resolves to
a concrete decryption key; whenever the key lookup resolves to no key
(read option `Everyone` with no attached key), the payload passes
through unchanged with no error; and for every metadata object
carrying an InitializationVector but no Confidentiality entry, the
result is the error `UnspecifiedReadability`. -/
theorem overlay_iv_spec (s : TreeAuthorityPlugin) (meta : Metadata) (withB : Bytes)
    (session : Session) (fuel : Nat) :
    (∀ c k, meta.get_confidentiality = some c → meta.get_iv = none →
      get_encrypt_key s meta c none session fuel = some (.ok (some k)) →
      data_as_overlay s meta withB session fuel =
        some (.error (.cryptoError .noIvPresent))) ∧
    (∀ c, meta.get_confidentiality = some c → meta.get_iv = none →
      get_encrypt_key s meta c none session fuel = some (.ok none) →
      data_as_overlay s meta withB session fuel = some (.ok withB)) ∧
    (∀ iv, meta.get_confidentiality = none → meta.get_iv = some iv →
      data_as_overlay s meta withB session fuel =
        some (.error .unspecifiedReadability)) := by
  refine ⟨?_, ?_, ?_⟩
  · intro c k h1 h2 h3
    simp [data_as_overlay, h1, h2, h3]
  · intro c h1 h2 h3
    simp [data_as_overlay, h1, h2, h3]
  · intro iv h1 h2
    simp [data_as_overlay, h1, h2]

/-- C4 — witness: the amended theorem applied to concrete metadata.
With a Specific read option whose derived key the session holds, a
missing IV is the hard error `NoIvPresent`; with read option
`Everyone(None)` and no IV, the payload passes through unchanged; an
IV without a Confidentiality entry is `UnspecifiedReadability`. -/
theorem overlay_iv_spec_witness :
    data_as_overlay TreeAuthorityPlugin.new mSpec 42 sessK 0 =
      some (.error (.cryptoError .noIvPresent)) ∧
    data_as_overlay TreeAuthorityPlugin.new mEvr 42 sessE 0 = some (.ok 42) ∧
    data_as_overlay TreeAuthorityPlugin.new mIv 7 sessE 0 =
      some (.error .unspecifiedReadability) :=
  ⟨(overlay_iv_spec TreeAuthorityPlugin.new mSpec 42 sessK 0).1
      ⟨99, some (.specific 10 dK)⟩ 99 rfl rfl rfl,
   (overlay_iv_spec TreeAuthorityPlugin.new mEvr 42 sessE 0).2.1
      ⟨0, none⟩ rfl rfl rfl,
   (overlay_iv_spec TreeAuthorityPlugin.new mIv 7 sessE 0).2.2 3 rfl rfl⟩

end Ate
